import Mathlib

/-!
Verification of the Deno WebRTC signaling server (src/main.ts).

The server keeps a mutable map `rooms : Map<string, Set<WebSocket>>` and a
per-socket `ClientInfo { room: string | null }`.  We embed this shallowly:
sockets are numbered by `Nat` (each upgrade makes a fresh socket object, so
the state carries a `nextId` counter), the JS `Map` becomes an association
list, the JS `Set` becomes a duplicate-free list in insertion order, and the
values that can land in the `room` field (`null` initially, a string or
`undefined` after `data.topics[0]`) become the type `JValue`, together with
JS truthiness (`undefined`, `null` and `""` are falsy).
-/

namespace Signaling

/-- JavaScript value that can occur as a room key or in `clientInfo.room`:
`undefined` (e.g. `topics[0]` of an empty array), `null`, or a string. -/
inductive JValue where
  | undef : JValue
  | jnull : JValue
  | jstr (s : String) : JValue
deriving DecidableEq, Repr

/-- JS truthiness of a `JValue`: `undefined`, `null` and the empty string
are falsy, every other string is truthy. -/
def JValue.truthy : JValue → Bool
  | .undef => false
  | .jnull => false
  | .jstr s => !(s == "")

/-- Per-connection state (`ClientInfo` in main.ts, minus the log-only
`connectedAt` timestamp and the socket back-reference). -/
structure ClientInfo where
  room : JValue
deriving DecidableEq, Repr

/-- JS `Map.get` (returning `none` for a missing key), over an association
list in insertion order. -/
def mapFind {α β : Type} [DecidableEq α] : List (α × β) → α → Option β
  | [], _ => none
  | p :: rest, k => if p.1 = k then some p.2 else mapFind rest k

/-- JS `Map.has`. -/
def mapHas {α β : Type} [DecidableEq α] (m : List (α × β)) (k : α) : Bool :=
  (mapFind m k).isSome

/-- JS `Map.set`: overwrite the entry in place if the key is present,
otherwise append at the end (insertion order). -/
def mapSet {α β : Type} [DecidableEq α] : List (α × β) → α → β → List (α × β)
  | [], k, v => [(k, v)]
  | p :: rest, k, v => if p.1 = k then (k, v) :: rest else p :: mapSet rest k v

/-- JS `Map.delete`. -/
def mapDelete {α β : Type} [DecidableEq α] : List (α × β) → α → List (α × β)
  | [], _ => []
  | p :: rest, k => if p.1 = k then mapDelete rest k else p :: mapDelete rest k

/-- JS `Set.add`: no-op if the element is present, else append. -/
def setAdd (l : List Nat) (c : Nat) : List Nat :=
  if c ∈ l then l else l ++ [c]

/-- The `rooms` map: room key to the set of member sockets. -/
abbrev RoomMap := List (JValue × List Nat)

/-- Member set of a room key (`rooms.get(k)`; `[]` when the key is absent —
the code only reads it under a `rooms.has` guard). -/
def roomMembers (m : RoomMap) (k : JValue) : List Nat :=
  (mapFind m k).getD []

/-- Whole-server state: the `rooms` map, the `clients` WeakMap (socket id to
`ClientInfo`), which sockets are currently in the OPEN ready-state, and the
counter producing fresh socket ids. -/
structure ServerState where
  rooms : RoomMap
  clients : List (Nat × ClientInfo)
  openConns : List Nat
  nextId : Nat
deriving DecidableEq, Repr

/-- Cold start: no rooms, no clients. -/
def initialState : ServerState := ⟨[], [], [], 0⟩

/-- Result of `JSON.parse(event.data)` as far as the server inspects it:
either a JSON object (with its `type` and `action` fields when they are
strings, and its `topics` field when it is an array), or a payload on which
`JSON.parse` throws. -/
inductive Message where
  | json (ty : Option String) (action : Option String) (topics : Option (List JValue)) : Message
  | nonJson : Message
deriving DecidableEq, Repr

/-- The shape test of main.ts line 131:
`data.type === "subscribe" && data.topics && Array.isArray(data.topics)`
(an array, even empty, is truthy). -/
def isSubscribeShape : Message → Bool
  | .json ty _ topics => ty == some "subscribe" && topics.isSome
  | .nonJson => false

/-- Lines 134-147 of main.ts, the room-switch inside the subscribe branch:
remove the socket from its old room when `clientInfo.room` is truthy and
present, deleting the room when it becomes empty. -/
def removeFromRoom (rooms : RoomMap) (room : JValue) (c : Nat) : RoomMap :=
  if room.truthy && mapHas rooms room then
    if ((roomMembers rooms room).filter (fun d => d != c)).isEmpty then
      mapDelete rooms room
    else
      mapSet rooms room ((roomMembers rooms room).filter (fun d => d != c))
  else rooms

/-- The subscribe branch (lines 131-155): `room = data.topics[0]`, leave the
old room, point `clientInfo.room` at the new key and add the socket to the
(possibly fresh) member set. -/
def doSubscribe (s : ServerState) (c : Nat) (info : ClientInfo) (topics : List JValue) :
    ServerState × ClientInfo :=
  let room := topics.headD JValue.undef
  let rooms1 := removeFromRoom s.rooms info.room c
  let newInfo : ClientInfo := { room := room }
  let rooms2 := mapSet rooms1 room (setAdd (roomMembers rooms1 room) c)
  ({ s with rooms := rooms2, clients := mapSet s.clients c newInfo }, newInfo)

/-- The fan-out loop (lines 157-167 and its copy in the catch block): if the
sender has a truthy room present in the registry, send the raw payload to
every member that is not the sender and whose ready-state is OPEN. -/
def relay (s : ServerState) (c : Nat) (info : ClientInfo) (payload : String) :
    List (Nat × String) :=
  if info.room.truthy && mapHas s.rooms info.room then
    ((roomMembers s.rooms info.room).filter
        (fun d => d != c && s.openConns.contains d)).map (fun d => (d, payload))
  else []

/-- The whole message listener (lines 126-189).  The result is the new state
together with the list of performed sends (recipient, raw payload). -/
def handleMessage (s : ServerState) (c : Nat) (m : Message) (payload : String) :
    ServerState × List (Nat × String) :=
  match mapFind s.clients c with
  | none => (s, [])
  | some info =>
    match m with
    | .nonJson => (s, relay s c info payload)
    | .json ty _ topics =>
      match topics with
      | some ts =>
        if ty == some "subscribe" then
          let p := doSubscribe s c info ts
          (p.1, relay p.1 c p.2 payload)
        else (s, relay s c info payload)
      | none => (s, relay s c info payload)

/-- The close listener (lines 191-213): leave the current room when truthy
and present (deleting it when empty), then drop the session. -/
def handleClose (s : ServerState) (c : Nat) : ServerState :=
  match mapFind s.clients c with
  | none => { s with openConns := s.openConns.filter (fun d => d != c) }
  | some info =>
    { rooms := removeFromRoom s.rooms info.room c
      clients := mapDelete s.clients c
      openConns := s.openConns.filter (fun d => d != c)
      nextId := s.nextId }

/-- Transport events driving the engine: a successful authenticated upgrade
(the new socket gets the fresh id `nextId`), an inbound message (parsed
shape plus raw payload), the ready-state leaving OPEN, and the close event. -/
inductive Event where
  | connect : Event
  | recv (c : Nat) (m : Message) (payload : String) : Event
  | closing (c : Nat) : Event
  | close (c : Nat) : Event
deriving DecidableEq, Repr

/-- One transport event: resulting state plus the sends it performed. -/
def step (s : ServerState) (e : Event) : ServerState × List (Nat × String) :=
  match e with
  | .connect =>
      ({ s with clients := mapSet s.clients s.nextId ⟨JValue.jnull⟩
                openConns := setAdd s.openConns s.nextId
                nextId := s.nextId + 1 }, [])
  | .recv c m payload => handleMessage s c m payload
  | .closing c => ({ s with openConns := s.openConns.filter (fun d => d != c) }, [])
  | .close c => (handleClose s c, [])

/-- Run a sequence of events. -/
def run (s : ServerState) : List Event → ServerState
  | [] => s
  | e :: es => run (step s e).1 es

/-- getTotalClients (lines 28-32): sum of the member-set sizes. -/
def getTotalClients (rooms : RoomMap) : Nat :=
  rooms.foldl (fun total p => total + p.2.length) 0

/-- getRoomStats (lines 34-40): room key to member count. -/
def getRoomStats (rooms : RoomMap) : List (JValue × Nat) :=
  rooms.map (fun p => (p.1, p.2.length))

/-- HTTP response of the request handler, as far as the spec observes it. -/
inductive HttpResponse where
  | health (status : String) (totalRooms : Nat) (totalClients : Nat)
      (roomStats : List (JValue × Nat)) (uptime : Nat) : HttpResponse
  | upgradeRequired : HttpResponse
  | unauthorized : HttpResponse
  | upgraded (protocol : String) : HttpResponse
deriving DecidableEq, Repr

/-- The Deno.serve handler (lines 45-110): health endpoint first, then the
upgrade check, then the Sec-WebSocket-Protocol password gate; on success the
password is echoed back as the accepted protocol and a fresh session with
`room = null` is installed. -/
def handleRequest (password : String) (s : ServerState) (path : String)
    (isUpgrade : Bool) (protocol : Option String) (nowMs : Nat) :
    HttpResponse × ServerState :=
  if path == "/health" || path == "/" then
    (.health "ok" s.rooms.length (getTotalClients s.rooms) (getRoomStats s.rooms)
      (nowMs / 1000), s)
  else if !isUpgrade then
    (.upgradeRequired, s)
  else if protocol != some password then
    (.unauthorized, s)
  else
    (.upgraded password,
      { s with clients := mapSet s.clients s.nextId ⟨JValue.jnull⟩
               openConns := setAdd s.openConns s.nextId
               nextId := s.nextId + 1 })

/-- An event is well formed when, if it is a recognized subscribe, its first
topic is a truthy room id (a non-empty string).  The code itself accepts any
topics array; see the phantom-room behaviour of claim C10. -/
def goodEvent : Event → Bool
  | .recv _ (.json ty _ (some ts)) _ =>
    if ty == some "subscribe" then (ts.headD JValue.undef).truthy else true
  | _ => true

/-- Claim C1 as a predicate on a state: every socket is in at most one room
entry, and an entry contains a socket exactly when that socket's session
points at the entry's key. -/
def MembershipConsistent (s : ServerState) : Prop :=
  (∀ (c : Nat) (k1 : JValue) (m1 : List Nat) (k2 : JValue) (m2 : List Nat),
      (k1, m1) ∈ s.rooms → (k2, m2) ∈ s.rooms → c ∈ m1 → c ∈ m2 → k1 = k2 ∧ m1 = m2) ∧
  (∀ (k : JValue) (ms : List Nat), (k, ms) ∈ s.rooms → ∀ c : Nat,
      c ∈ ms ↔ ∃ info, mapFind s.clients c = some info ∧ info.room = k)

/-- A y-webrtc subscribe message naming one room. -/
def subscribeMsg (r : String) : Message :=
  .json (some "subscribe") none (some [JValue.jstr r])

/-- A subscribe message with an empty topics array. -/
def emptySubscribeMsg : Message :=
  .json (some "subscribe") none (some [])

/-- One client connects and never subscribes. -/
def esOneConn : List Event := [.connect]

/-- A client joins the phantom undefined room, then room A. -/
def esPhantomSwitch : List Event :=
  [.connect, .recv 0 emptySubscribeMsg "a", .recv 0 (subscribeMsg "A") "b"]

/-- One client in the phantom undefined room, plus a fresh client. -/
def esPhantomPair : List Event :=
  [.connect, .recv 0 emptySubscribeMsg "a", .connect]

/-- Two clients both subscribed to room A. -/
def esPairRoomA : List Event :=
  [.connect, .connect, .recv 0 (subscribeMsg "A") "sub0", .recv 1 (subscribeMsg "A") "sub1"]

/-- Sockets 0 and 1 in room A, socket 2 in room B. -/
def esTwoRooms : List Event :=
  [.connect, .connect, .connect, .recv 0 (subscribeMsg "A") "sub0",
   .recv 1 (subscribeMsg "A") "sub1", .recv 2 (subscribeMsg "B") "sub2"]

/-- A structured message using the `action` discriminator instead of `type`. -/
def actionSubscribeMsg : Message :=
  .json none (some "subscribe") (some [JValue.jstr "A"])

/-- The states reached by the concrete scenarios above. -/
def sOneConn : ServerState := run initialState esOneConn

def sPhantomPair : ServerState := run initialState esPhantomPair

def sPair : ServerState := run initialState esPairRoomA

def sTwoRooms : ServerState := run initialState esTwoRooms

/-! ### Association-list lemmas (the JS `Map` operations) -/

theorem mem_of_mapFind {α β : Type} [DecidableEq α] {m : List (α × β)} {k : α} {v : β}
    (h : mapFind m k = some v) : (k, v) ∈ m := by
  induction m with
  | nil => simp [mapFind] at h
  | cons p rest ih =>
    obtain ⟨a, b⟩ := p
    rw [mapFind] at h
    split at h
    · next hp =>
      injection h with hv
      subst hp; subst hv
      exact List.mem_cons_self _ _
    · exact List.mem_cons_of_mem _ (ih h)

theorem mapFind_eq_none_of_not_mem_keys {α β : Type} [DecidableEq α] {m : List (α × β)} {k : α}
    (h : k ∉ m.map Prod.fst) : mapFind m k = none := by
  induction m with
  | nil => rfl
  | cons p rest ih =>
    obtain ⟨a, b⟩ := p
    simp only [List.map_cons, List.mem_cons, not_or] at h
    rw [mapFind, if_neg (fun hh => h.1 hh.symm)]
    exact ih h.2

theorem mapFind_eq_some_of_mem {α β : Type} [DecidableEq α] {m : List (α × β)} {k : α} {v : β}
    (hnd : (m.map Prod.fst).Nodup) (h : (k, v) ∈ m) : mapFind m k = some v := by
  induction m with
  | nil => cases h
  | cons p rest ih =>
    obtain ⟨a, b⟩ := p
    simp only [List.map_cons, List.nodup_cons] at hnd
    rcases List.mem_cons.mp h with heq | hmem
    · injection heq with h1 h2
      subst h1; subst h2
      rw [mapFind, if_pos rfl]
    · have hak : a ≠ k := by
        intro hh
        subst hh
        exact hnd.1 (List.mem_map.mpr ⟨(a, v), hmem, rfl⟩)
      rw [mapFind, if_neg hak]
      exact ih hnd.2 hmem

theorem mapFind_mapSet_self {α β : Type} [DecidableEq α] (m : List (α × β)) (k : α) (v : β) :
    mapFind (mapSet m k v) k = some v := by
  induction m with
  | nil => rw [mapSet, mapFind, if_pos rfl]
  | cons p rest ih =>
    obtain ⟨a, b⟩ := p
    rw [mapSet]
    split
    · rw [mapFind, if_pos rfl]
    · next hp => rw [mapFind, if_neg hp]; exact ih

theorem mapFind_mapSet_ne {α β : Type} [DecidableEq α] (m : List (α × β)) {k k' : α} (v : β)
    (h : k' ≠ k) : mapFind (mapSet m k v) k' = mapFind m k' := by
  induction m with
  | nil => simp [mapSet, mapFind, Ne.symm h]
  | cons p rest ih =>
    obtain ⟨a, b⟩ := p
    by_cases hak : a = k
    · subst hak
      simp [mapSet, mapFind, Ne.symm h]
    · by_cases hak' : a = k'
      · simp [mapSet, mapFind, hak, hak', h]
      · simp [mapSet, mapFind, hak, hak', h, ih]

theorem mapFind_mapDelete_self {α β : Type} [DecidableEq α] (m : List (α × β)) (k : α) :
    mapFind (mapDelete m k) k = none := by
  induction m with
  | nil => rfl
  | cons p rest ih =>
    obtain ⟨a, b⟩ := p
    rw [mapDelete]
    split
    · exact ih
    · next hp => rw [mapFind, if_neg hp]; exact ih

theorem mapFind_mapDelete_ne {α β : Type} [DecidableEq α] (m : List (α × β)) {k k' : α}
    (h : k' ≠ k) : mapFind (mapDelete m k) k' = mapFind m k' := by
  induction m with
  | nil => rfl
  | cons p rest ih =>
    obtain ⟨a, b⟩ := p
    rw [mapDelete]
    split
    · next hp =>
      rw [mapFind, if_neg]
      · exact ih
      · intro hh; exact h (hp ▸ hh).symm
    · rw [mapFind, mapFind]
      split
      · rfl
      · exact ih

theorem mem_mapDelete {α β : Type} [DecidableEq α] {m : List (α × β)} {k : α} {q : α × β} :
    q ∈ mapDelete m k ↔ q ∈ m ∧ q.1 ≠ k := by
  induction m with
  | nil => simp [mapDelete]
  | cons p rest ih =>
    obtain ⟨a, b⟩ := p
    rw [mapDelete]
    split
    · next hp =>
      subst hp
      rw [ih]
      constructor
      · rintro ⟨hq, hne⟩
        exact ⟨List.mem_cons_of_mem _ hq, hne⟩
      · rintro ⟨hq, hne⟩
        rcases List.mem_cons.mp hq with rfl | hq2
        · exact absurd rfl hne
        · exact ⟨hq2, hne⟩
    · next hp =>
      constructor
      · intro hq
        rcases List.mem_cons.mp hq with rfl | hq2
        · exact ⟨List.mem_cons_self _ _, hp⟩
        · have := ih.mp hq2
          exact ⟨List.mem_cons_of_mem _ this.1, this.2⟩
      · rintro ⟨hq, hne⟩
        rcases List.mem_cons.mp hq with rfl | hq2
        · exact List.mem_cons_self _ _
        · exact List.mem_cons_of_mem _ (ih.mpr ⟨hq2, hne⟩)

theorem mem_mapSet {α β : Type} [DecidableEq α] {m : List (α × β)} {k : α} {v : β} {q : α × β}
    (hnd : (m.map Prod.fst).Nodup) :
    q ∈ mapSet m k v ↔ q = (k, v) ∨ (q ∈ m ∧ q.1 ≠ k) := by
  induction m with
  | nil => simp [mapSet]
  | cons p rest ih =>
    obtain ⟨a, b⟩ := p
    simp only [List.map_cons, List.nodup_cons] at hnd
    rw [mapSet]
    split
    · next hp =>
      subst hp
      constructor
      · intro hq
        rcases List.mem_cons.mp hq with rfl | hq2
        · exact Or.inl rfl
        · refine Or.inr ⟨List.mem_cons_of_mem _ hq2, ?_⟩
          intro hh
          exact hnd.1 (List.mem_map.mpr ⟨q, hq2, hh⟩)
      · rintro (rfl | ⟨hq, hne⟩)
        · exact List.mem_cons_self _ _
        · rcases List.mem_cons.mp hq with rfl | hq2
          · exact absurd rfl hne
          · exact List.mem_cons_of_mem _ hq2
    · next hp =>
      constructor
      · intro hq
        rcases List.mem_cons.mp hq with rfl | hq2
        · exact Or.inr ⟨List.mem_cons_self _ _, hp⟩
        · rcases (ih hnd.2).mp hq2 with rfl | ⟨hq3, hne⟩
          · exact Or.inl rfl
          · exact Or.inr ⟨List.mem_cons_of_mem _ hq3, hne⟩
      · rintro (rfl | ⟨hq, hne⟩)
        · exact List.mem_cons_of_mem _ ((ih hnd.2).mpr (Or.inl rfl))
        · rcases List.mem_cons.mp hq with rfl | hq2
          · exact List.mem_cons_self _ _
          · exact List.mem_cons_of_mem _ ((ih hnd.2).mpr (Or.inr ⟨hq2, hne⟩))

theorem mapHas_iff_exists {α β : Type} [DecidableEq α] {m : List (α × β)} {k : α} :
    mapHas m k = true ↔ ∃ v, mapFind m k = some v := by
  rw [mapHas, Option.isSome_iff_exists]

theorem mapHas_eq_false_iff {α β : Type} [DecidableEq α] {m : List (α × β)} {k : α} :
    mapHas m k = false ↔ mapFind m k = none := by
  cases h : mapFind m k <;> simp [mapHas, h]

theorem mapHas_of_mem {α β : Type} [DecidableEq α] {m : List (α × β)} {q : α × β}
    (h : q ∈ m) : mapHas m q.1 = true := by
  induction m with
  | nil => cases h
  | cons p rest ih =>
    obtain ⟨a, b⟩ := p
    by_cases hak : a = q.1
    · simp [mapHas, mapFind, hak]
    · rcases List.mem_cons.mp h with rfl | h2
      · exact absurd rfl hak
      · simpa [mapHas, mapFind, hak] using ih h2

theorem keys_mapSet_of_has {α β : Type} [DecidableEq α] {m : List (α × β)} {k : α} (v : β)
    (h : mapHas m k = true) : (mapSet m k v).map Prod.fst = m.map Prod.fst := by
  induction m with
  | nil => simp [mapHas, mapFind] at h
  | cons p rest ih =>
    obtain ⟨a, b⟩ := p
    by_cases hak : a = k
    · subst hak
      simp [mapSet]
    · rw [mapHas, mapFind, if_neg hak] at h
      simp [mapSet, hak, ih h]

theorem keys_mapSet_of_not_has {α β : Type} [DecidableEq α] {m : List (α × β)} {k : α} (v : β)
    (h : mapHas m k = false) : (mapSet m k v).map Prod.fst = m.map Prod.fst ++ [k] := by
  induction m with
  | nil => simp [mapSet]
  | cons p rest ih =>
    obtain ⟨a, b⟩ := p
    by_cases hak : a = k
    · subst hak
      rw [mapHas, mapFind, if_pos rfl] at h
      simp at h
    · rw [mapHas, mapFind, if_neg hak] at h
      simp [mapSet, hak, ih h]

theorem nodup_keys_mapSet {α β : Type} [DecidableEq α] {m : List (α × β)} {k : α} (v : β)
    (hnd : (m.map Prod.fst).Nodup) : ((mapSet m k v).map Prod.fst).Nodup := by
  cases hhas : mapHas m k with
  | true => rw [keys_mapSet_of_has v hhas]; exact hnd
  | false =>
    rw [keys_mapSet_of_not_has v hhas]
    rw [List.nodup_append]
    refine ⟨hnd, List.nodup_singleton k, ?_⟩
    intro x hx hk
    rcases List.mem_singleton.mp hk with rfl
    rcases List.mem_map.mp hx with ⟨q, hq, rfl⟩
    rw [mapHas_of_mem hq] at hhas
    cases hhas

theorem sublist_mapDelete {α β : Type} [DecidableEq α] (m : List (α × β)) (k : α) :
    (mapDelete m k).Sublist m := by
  induction m with
  | nil => exact List.Sublist.refl _
  | cons p rest ih =>
    rw [mapDelete]
    split
    · exact ih.cons _
    · exact ih.cons₂ _

theorem nodup_keys_mapDelete {α β : Type} [DecidableEq α] {m : List (α × β)} (k : α)
    (hnd : (m.map Prod.fst).Nodup) : ((mapDelete m k).map Prod.fst).Nodup :=
  hnd.sublist ((sublist_mapDelete m k).map Prod.fst)

theorem mem_setAdd {l : List Nat} {c d : Nat} : d ∈ setAdd l c ↔ d ∈ l ∨ d = c := by
  rw [setAdd]
  split
  · constructor
    · exact Or.inl
    · rintro (hd | rfl)
      · exact hd
      · assumption
  · simp

theorem setAdd_ne_nil (l : List Nat) (c : Nat) : setAdd l c ≠ [] := by
  rw [setAdd]
  split
  · next h => intro hnil; rw [hnil] at h; cases h
  · simp

theorem roomMembers_eq_of_mem {m : RoomMap} {k : JValue} {ms : List Nat}
    (hnd : (m.map Prod.fst).Nodup) (h : (k, ms) ∈ m) : roomMembers m k = ms := by
  rw [roomMembers, mapFind_eq_some_of_mem hnd h, Option.getD_some]

theorem mem_roomMembers_self {m : RoomMap} {k : JValue} (h : mapHas m k = true) :
    (k, roomMembers m k) ∈ m := by
  rcases mapHas_iff_exists.mp h with ⟨v, hv⟩
  rw [roomMembers, hv, Option.getD_some]
  exact mem_of_mapFind hv

theorem roomMembers_eq_nil_of_not_has {m : RoomMap} {k : JValue} (h : mapHas m k = false) :
    roomMembers m k = [] := by
  rw [roomMembers, mapHas_eq_false_iff.mp h, Option.getD_none]

/-! ### The bidirectional membership invariant -/

/-- State invariant tying the registry to the sessions: room keys are
distinct and truthy, a socket is in a member set exactly when its session
points at that key, every session with a truthy room has its room present,
and all session ids are below the fresh-id counter. -/
structure Inv (s : ServerState) : Prop where
  roomKeysNodup : (s.rooms.map Prod.fst).Nodup
  clientKeysNodup : (s.clients.map Prod.fst).Nodup
  keysTruthy : ∀ p ∈ s.rooms, p.1.truthy = true
  consistent : ∀ p ∈ s.rooms, ∀ d : Nat,
      d ∈ p.2 ↔ ∃ i, mapFind s.clients d = some i ∧ i.room = p.1
  roomHas : ∀ (d : Nat) (i : ClientInfo), mapFind s.clients d = some i →
      i.room.truthy = true → mapHas s.rooms i.room = true
  bound : ∀ p ∈ s.clients, p.1 < s.nextId

theorem key_eq_room_of_mem {s : ServerState} (hInv : Inv s) {p : JValue × List Nat}
    (hp : p ∈ s.rooms) {c : Nat} {info : ClientInfo}
    (hc : mapFind s.clients c = some info) (hm : c ∈ p.2) : p.1 = info.room := by
  rcases (hInv.consistent p hp c).mp hm with ⟨i, hfind, hroom⟩
  rw [hc] at hfind
  injection hfind with h
  subst h
  exact hroom.symm

theorem not_mem_filter_ne_self (M : List Nat) (c : Nat) :
    c ∉ M.filter (fun d => d != c) := by
  simp [List.mem_filter]

theorem mem_filter_ne {M : List Nat} {c d : Nat} :
    d ∈ M.filter (fun x => x != c) ↔ d ∈ M ∧ d ≠ c := by
  simp [List.mem_filter]

theorem removeFromRoom_spec (s : ServerState) (hInv : Inv s) (c : Nat) (info : ClientInfo)
    (hc : mapFind s.clients c = some info) :
    ((removeFromRoom s.rooms info.room c).map Prod.fst).Nodup ∧
    (∀ p ∈ removeFromRoom s.rooms info.room c, p.1.truthy = true) ∧
    (∀ p ∈ removeFromRoom s.rooms info.room c, c ∉ p.2) ∧
    (∀ p ∈ removeFromRoom s.rooms info.room c, ∀ d : Nat, d ≠ c →
        (d ∈ p.2 ↔ ∃ i, mapFind s.clients d = some i ∧ i.room = p.1)) ∧
    (∀ (d : Nat) (i : ClientInfo), d ≠ c → mapFind s.clients d = some i →
        i.room.truthy = true → mapHas (removeFromRoom s.rooms info.room c) i.room = true) := by
  rw [removeFromRoom]
  split
  · next hguard =>
    rw [Bool.and_eq_true] at hguard
    obtain ⟨htr, hhas⟩ := hguard
    have hmem : (info.room, roomMembers s.rooms info.room) ∈ s.rooms :=
      mem_roomMembers_self hhas
    split
    · next hempty =>
      -- the old room became empty and is deleted
      refine ⟨nodup_keys_mapDelete _ hInv.roomKeysNodup, ?_, ?_, ?_, ?_⟩
      · intro p hp
        exact hInv.keysTruthy p (mem_mapDelete.mp hp).1
      · intro p hp hcmem
        obtain ⟨hpmem, hpne⟩ := mem_mapDelete.mp hp
        exact hpne (key_eq_room_of_mem hInv hpmem hc hcmem)
      · intro p hp d _
        exact hInv.consistent p (mem_mapDelete.mp hp).1 d
      · intro d i hd hfind hitr
        by_cases hir : i.room = info.room
        · exfalso
          have hdM : d ∈ roomMembers s.rooms info.room :=
            (hInv.consistent _ hmem d).mpr ⟨i, hfind, hir⟩
          have : d ∈ (roomMembers s.rooms info.room).filter (fun x => x != c) :=
            mem_filter_ne.mpr ⟨hdM, hd⟩
          rw [List.isEmpty_iff] at hempty
          rw [hempty] at this
          cases this
        · have := hInv.roomHas d i hfind hitr
          rw [mapHas_iff_exists] at this ⊢
          rcases this with ⟨v, hv⟩
          exact ⟨v, by rw [mapFind_mapDelete_ne _ hir, hv]⟩
    · next hempty =>
      -- the old room keeps its other members
      refine ⟨nodup_keys_mapSet _ hInv.roomKeysNodup, ?_, ?_, ?_, ?_⟩
      · intro p hp
        rcases (mem_mapSet hInv.roomKeysNodup).mp hp with rfl | ⟨hpmem, _⟩
        · exact htr
        · exact hInv.keysTruthy p hpmem
      · intro p hp hcmem
        rcases (mem_mapSet hInv.roomKeysNodup).mp hp with rfl | ⟨hpmem, hpne⟩
        · exact not_mem_filter_ne_self _ c hcmem
        · exact hpne (key_eq_room_of_mem hInv hpmem hc hcmem)
      · intro p hp d hd
        rcases (mem_mapSet hInv.roomKeysNodup).mp hp with rfl | ⟨hpmem, _⟩
        · rw [mem_filter_ne]
          constructor
          · rintro ⟨hdM, _⟩
            exact (hInv.consistent _ hmem d).mp hdM
          · intro hex
            exact ⟨(hInv.consistent _ hmem d).mpr hex, hd⟩
        · exact hInv.consistent p hpmem d
      · intro d i hd hfind hitr
        by_cases hir : i.room = info.room
        · rw [mapHas_iff_exists, hir]
          exact ⟨_, mapFind_mapSet_self _ _ _⟩
        · have := hInv.roomHas d i hfind hitr
          rw [mapHas_iff_exists] at this ⊢
          rcases this with ⟨v, hv⟩
          exact ⟨v, by rw [mapFind_mapSet_ne _ _ hir, hv]⟩
  · next hguard =>
    -- the session has no (present, truthy) room: nothing to remove
    rw [Bool.and_eq_true, not_and_or] at hguard
    have hnotmem : ∀ p ∈ s.rooms, c ∉ p.2 := by
      intro p hp hcmem
      have hkey := key_eq_room_of_mem hInv hp hc hcmem
      rcases hguard with htr | hhas
      · have hkt := hInv.keysTruthy p hp
        rw [hkey] at hkt
        exact htr hkt
      · have hh := mapHas_of_mem hp
        rw [hkey] at hh
        exact hhas hh
    exact ⟨hInv.roomKeysNodup, hInv.keysTruthy, hnotmem,
      fun p hp d _ => hInv.consistent p hp d, fun d i _ => hInv.roomHas d i⟩

theorem inv_doSubscribe (s : ServerState) (hInv : Inv s) (c : Nat) (info : ClientInfo)
    (hc : mapFind s.clients c = some info) (ts : List JValue)
    (ht : (ts.headD JValue.undef).truthy = true) :
    Inv (doSubscribe s c info ts).1 := by
  simp only [doSubscribe]
  obtain ⟨hnd1, htr1, hnc1, hiff1, hhas1⟩ := removeFromRoom_spec s hInv c info hc
  have hcmem : (c, info) ∈ s.clients := mem_of_mapFind hc
  have hcbound : c < s.nextId := hInv.bound _ hcmem
  have hchas : mapHas s.clients c = true := by rw [mapHas, hc]; rfl
  refine ⟨?_, ?_, ?_, ?_, ?_, ?_⟩
  · exact nodup_keys_mapSet _ hnd1
  · show ((mapSet s.clients c ⟨ts.headD JValue.undef⟩).map Prod.fst).Nodup
    rw [keys_mapSet_of_has _ hchas]
    exact hInv.clientKeysNodup
  · dsimp only
    intro p hp
    obtain ⟨k, ms⟩ := p
    rcases (mem_mapSet hnd1).mp hp with heq | ⟨hpm, _⟩
    · injection heq with h1 h2
      subst h1
      exact ht
    · exact htr1 _ hpm
  · dsimp only
    intro p hp d
    obtain ⟨k, ms⟩ := p
    rcases (mem_mapSet hnd1).mp hp with heq | ⟨hpm, hpne⟩
    · injection heq with h1 h2
      subst h1; subst h2
      by_cases hd : d = c
      · subst hd
        constructor
        · intro _
          exact ⟨⟨ts.headD JValue.undef⟩, mapFind_mapSet_self _ _ _, rfl⟩
        · intro _
          exact mem_setAdd.mpr (Or.inr rfl)
      · show d ∈ setAdd _ _ ↔ _
        rw [mem_setAdd, mapFind_mapSet_ne _ _ hd]
        cases hhas1t : mapHas (removeFromRoom s.rooms info.room c) (ts.headD JValue.undef) with
        | true =>
          have hiff := hiff1 _ (mem_roomMembers_self hhas1t) d hd
          constructor
          · rintro (hdm | rfl)
            · exact hiff.mp hdm
            · exact absurd rfl hd
          · intro hex
            exact Or.inl (hiff.mpr hex)
        | false =>
          rw [roomMembers_eq_nil_of_not_has hhas1t]
          constructor
          · rintro (hdm | rfl)
            · cases hdm
            · exact absurd rfl hd
          · rintro ⟨i, hfind, hroom⟩
            exfalso
            have hroom2 : i.room = ts.headD JValue.undef := hroom
            have hh := hhas1 d i hd hfind (by rw [hroom2]; exact ht)
            rw [hroom2] at hh
            rw [hh] at hhas1t
            cases hhas1t
    · by_cases hd : d = c
      · subst hd
        constructor
        · intro hdm
          exact absurd hdm (hnc1 _ hpm)
        · rintro ⟨i, hfind, hroom⟩
          rw [mapFind_mapSet_self] at hfind
          injection hfind with hi
          subst hi
          exact absurd hroom.symm hpne
      · show d ∈ ms ↔ _
        rw [mapFind_mapSet_ne _ _ hd]
        exact hiff1 _ hpm d hd
  · dsimp only
    intro d i hfind hitr
    by_cases hd : d = c
    · subst hd
      rw [mapFind_mapSet_self] at hfind
      injection hfind with hi
      subst hi
      rw [mapHas_iff_exists]
      exact ⟨_, mapFind_mapSet_self _ _ _⟩
    · rw [mapFind_mapSet_ne _ _ hd] at hfind
      have hh := hhas1 d i hd hfind hitr
      by_cases hir : i.room = ts.headD JValue.undef
      · rw [mapHas_iff_exists, hir]
        exact ⟨_, mapFind_mapSet_self _ _ _⟩
      · rw [mapHas_iff_exists] at hh ⊢
        rcases hh with ⟨v, hv⟩
        exact ⟨v, by rw [mapFind_mapSet_ne _ _ hir]; exact hv⟩
  · dsimp only
    intro p hp
    rcases (mem_mapSet hInv.clientKeysNodup).mp hp with heq | ⟨hpm, _⟩
    · obtain ⟨k, i⟩ := p
      injection heq with h1 h2
      subst h1
      exact hcbound
    · exact hInv.bound p hpm

theorem inv_handleClose (s : ServerState) (hInv : Inv s) (c : Nat) :
    Inv (handleClose s c) := by
  rw [handleClose]
  cases hc : mapFind s.clients c with
  | none =>
    exact ⟨hInv.roomKeysNodup, hInv.clientKeysNodup, hInv.keysTruthy, hInv.consistent,
      hInv.roomHas, hInv.bound⟩
  | some info =>
    obtain ⟨hnd1, htr1, hnc1, hiff1, hhas1⟩ := removeFromRoom_spec s hInv c info hc
    refine ⟨hnd1, nodup_keys_mapDelete _ hInv.clientKeysNodup, htr1, ?_, ?_, ?_⟩
    · intro p hp d
      by_cases hd : d = c
      · subst hd
        constructor
        · intro hdm
          exact absurd hdm (hnc1 _ hp)
        · rintro ⟨i, hfind, _⟩
          rw [mapFind_mapDelete_self] at hfind
          cases hfind
      · show d ∈ p.2 ↔ _
        rw [mapFind_mapDelete_ne _ hd]
        exact hiff1 _ hp d hd
    · intro d i hfind hitr
      by_cases hd : d = c
      · subst hd
        rw [mapFind_mapDelete_self] at hfind
        cases hfind
      · rw [mapFind_mapDelete_ne _ hd] at hfind
        exact hhas1 d i hd hfind hitr
    · intro p hp
      exact hInv.bound p (mem_mapDelete.mp hp).1

theorem inv_connect (s : ServerState) (hInv : Inv s) :
    Inv { s with clients := mapSet s.clients s.nextId ⟨JValue.jnull⟩
                 openConns := setAdd s.openConns s.nextId
                 nextId := s.nextId + 1 } := by
  have hfresh : s.nextId ∉ s.clients.map Prod.fst := by
    intro hmem
    rcases List.mem_map.mp hmem with ⟨q, hq, hfst⟩
    exact absurd (hfst ▸ hInv.bound q hq) (lt_irrefl s.nextId)
  have hnone : mapFind s.clients s.nextId = none := mapFind_eq_none_of_not_mem_keys hfresh
  have hnohas : mapHas s.clients s.nextId = false := mapHas_eq_false_iff.mpr hnone
  refine ⟨hInv.roomKeysNodup, ?_, hInv.keysTruthy, ?_, ?_, ?_⟩
  · show ((mapSet s.clients s.nextId ⟨JValue.jnull⟩).map Prod.fst).Nodup
    rw [keys_mapSet_of_not_has _ hnohas, List.nodup_append]
    refine ⟨hInv.clientKeysNodup, List.nodup_singleton _, ?_⟩
    intro x hx hxs
    rcases List.mem_singleton.mp hxs with rfl
    exact hfresh hx
  · dsimp only
    intro p hp d
    by_cases hd : d = s.nextId
    · constructor
      · intro hdm
        rcases (hInv.consistent p hp d).mp hdm with ⟨i, hfind, _⟩
        rw [hd, hnone] at hfind
        cases hfind
      · rintro ⟨i, hfind, hroom⟩
        rw [hd, mapFind_mapSet_self] at hfind
        injection hfind with hi
        subst hi
        exfalso
        have hkt := hInv.keysTruthy p hp
        rw [← hroom] at hkt
        exact Bool.false_ne_true hkt
    · rw [mapFind_mapSet_ne _ _ hd]
      exact hInv.consistent p hp d
  · dsimp only
    intro d i hfind hitr
    by_cases hd : d = s.nextId
    · rw [hd, mapFind_mapSet_self] at hfind
      injection hfind with hi
      subst hi
      exact absurd hitr Bool.false_ne_true
    · rw [mapFind_mapSet_ne _ _ hd] at hfind
      exact hInv.roomHas d i hfind hitr
  · dsimp only
    intro p hp
    rcases (mem_mapSet hInv.clientKeysNodup).mp hp with heq | ⟨hpm, _⟩
    · obtain ⟨k, i⟩ := p
      injection heq with h1 h2
      subst h1
      exact Nat.lt_succ_self _
    · exact Nat.lt_succ_of_lt (hInv.bound p hpm)

/-! ### Unfolding lemmas for the message listener -/

theorem handleMessage_no_session (s : ServerState) (c : Nat)
    (hc : mapFind s.clients c = none) (m : Message) (payload : String) :
    handleMessage s c m payload = (s, []) := by
  rw [handleMessage, hc]

theorem handleMessage_not_subscribe (s : ServerState) (c : Nat) (info : ClientInfo)
    (hc : mapFind s.clients c = some info) (m : Message)
    (hm : isSubscribeShape m = false) (payload : String) :
    handleMessage s c m payload = (s, relay s c info payload) := by
  rw [handleMessage, hc]
  cases m with
  | nonJson => rfl
  | json ty ac topics =>
    cases topics with
    | none => rfl
    | some ts =>
      have hty : (ty == some "subscribe") = false := by
        simp only [isSubscribeShape, Option.isSome_some, Bool.and_true] at hm
        exact hm
      simp only [hty, Bool.false_eq_true, if_false]

theorem handleMessage_subscribe (s : ServerState) (c : Nat) (info : ClientInfo)
    (hc : mapFind s.clients c = some info) (ty ac : Option String) (ts : List JValue)
    (hty : (ty == some "subscribe") = true) (payload : String) :
    handleMessage s c (.json ty ac (some ts)) payload =
      ((doSubscribe s c info ts).1,
        relay (doSubscribe s c info ts).1 c (doSubscribe s c info ts).2 payload) := by
  rw [handleMessage, hc]
  simp only [hty, if_true]

theorem relay_of_truthy_has (s : ServerState) (c : Nat) (info : ClientInfo)
    (htr : info.room.truthy = true) (hhas : mapHas s.rooms info.room = true)
    (payload : String) :
    relay s c info payload =
      ((roomMembers s.rooms info.room).filter
        (fun d => d != c && s.openConns.contains d)).map (fun d => (d, payload)) := by
  rw [relay, if_pos]
  rw [htr, hhas]
  rfl

theorem relay_of_not_truthy (s : ServerState) (c : Nat) (info : ClientInfo)
    (htr : info.room.truthy = false) (payload : String) :
    relay s c info payload = [] := by
  rw [relay, if_neg]
  rw [htr]
  simp

/-! ### The invariant holds along every well-formed run -/

theorem inv_step (s : ServerState) (hInv : Inv s) (e : Event) (hg : goodEvent e = true) :
    Inv (step s e).1 := by
  cases e with
  | connect => exact inv_connect s hInv
  | closing c =>
    exact ⟨hInv.roomKeysNodup, hInv.clientKeysNodup, hInv.keysTruthy, hInv.consistent,
      hInv.roomHas, hInv.bound⟩
  | close c => exact inv_handleClose s hInv c
  | recv c m payload =>
    show Inv (handleMessage s c m payload).1
    cases hc : mapFind s.clients c with
    | none => rw [handleMessage_no_session s c hc]; exact hInv
    | some info =>
      cases hsub : isSubscribeShape m with
      | false =>
        rw [handleMessage_not_subscribe s c info hc m hsub]
        exact hInv
      | true =>
        cases m with
        | nonJson => simp [isSubscribeShape] at hsub
        | json ty ac topics =>
          cases topics with
          | none => simp [isSubscribeShape] at hsub
          | some ts =>
            have hty : (ty == some "subscribe") = true := by
              simp only [isSubscribeShape, Option.isSome_some, Bool.and_true] at hsub
              exact hsub
            rw [handleMessage_subscribe s c info hc ty ac ts hty payload]
            have ht : (ts.headD JValue.undef).truthy = true := by
              simp only [goodEvent] at hg
              rw [if_pos hty] at hg
              exact hg
            exact inv_doSubscribe s hInv c info hc ts ht

theorem inv_initialState : Inv initialState := by
  refine ⟨List.nodup_nil, List.nodup_nil, ?_, ?_, ?_, ?_⟩
  · intro p hp
    cases hp
  · intro p hp
    cases hp
  · intro d i hfind
    simp [mapFind, initialState] at hfind
  · intro p hp
    cases hp

theorem inv_run (es : List Event) :
    ∀ s : ServerState, Inv s → (∀ e ∈ es, goodEvent e = true) → Inv (run s es) := by
  induction es with
  | nil =>
    intro s hInv _
    exact hInv
  | cons e rest ih =>
    intro s hInv hg
    rw [run]
    exact ih _ (inv_step s hInv e (hg e (List.mem_cons_self _ _)))
      (fun x hx => hg x (List.mem_cons_of_mem _ hx))

theorem membershipConsistent_of_inv (s : ServerState) (hInv : Inv s) :
    MembershipConsistent s := by
  constructor
  · intro c k1 m1 k2 m2 h1 h2 hc1 hc2
    rcases (hInv.consistent _ h1 c).mp hc1 with ⟨i1, hf1, hr1⟩
    rcases (hInv.consistent _ h2 c).mp hc2 with ⟨i2, hf2, hr2⟩
    rw [hf1] at hf2
    injection hf2 with hi
    subst hi
    have hr1k : i1.room = k1 := hr1
    have hr2k : i1.room = k2 := hr2
    have hk : k1 = k2 := by rw [← hr1k, ← hr2k]
    subst hk
    have e1 := mapFind_eq_some_of_mem hInv.roomKeysNodup h1
    have e2 := mapFind_eq_some_of_mem hInv.roomKeysNodup h2
    rw [e1] at e2
    injection e2 with hm
    exact ⟨rfl, hm⟩
  · intro k ms h c
    exact hInv.consistent _ h c

/-! ### Claim C1 -/

/-- C1 (amended): for every sequence of connection-open, subscribe and
connection-close events in which every subscribe carries a truthy (non-empty
string) first topic, at every observation point each connection appears in
at most one room entry, and an entry contains a connection exactly when that
connection's currentRoom pointer names the entry's key. -/
theorem c1_bidirectional_membership (es : List Event)
    (hg : ∀ e ∈ es, goodEvent e = true) :
    MembershipConsistent (run initialState es) :=
  membershipConsistent_of_inv _ (inv_run es initialState inv_initialState hg)

/-- Witness for C1 at a concrete well-formed event sequence. -/
theorem c1_bidirectional_membership_witness :
    (∀ e ∈ esPairRoomA, goodEvent e = true) ∧
    MembershipConsistent (run initialState esPairRoomA) :=
  ⟨by decide, c1_bidirectional_membership esPairRoomA (by decide)⟩

/-- C1 as stated is false on the code: after a subscribe with an empty topics
array followed by a subscribe to room A, socket 0 sits in two distinct room
entries (the phantom undefined entry and room A) at once. -/
theorem c1_counterexample : ¬ MembershipConsistent (run initialState esPhantomSwitch) := by
  intro h
  have h01 : (JValue.undef, [0]) ∈ (run initialState esPhantomSwitch).rooms := by decide
  have h02 : (JValue.jstr "A", [0]) ∈ (run initialState esPhantomSwitch).rooms := by decide
  have hkeys := (h.1 0 JValue.undef [0] (JValue.jstr "A") [0] h01 h02
    (by decide) (by decide)).1
  cases hkeys

/-! ### Further helper lemmas about the room-switch and removal code -/

theorem mem_mapSet_weak {α β : Type} [DecidableEq α] {m : List (α × β)} {k : α} {v : β}
    {q : α × β} (h : q ∈ mapSet m k v) : q = (k, v) ∨ q ∈ m := by
  induction m with
  | nil =>
    rcases List.mem_singleton.mp (by simpa [mapSet] using h) with rfl
    exact Or.inl rfl
  | cons p rest ih =>
    obtain ⟨a, b⟩ := p
    rw [mapSet] at h
    split at h
    · rcases List.mem_cons.mp h with rfl | h2
      · exact Or.inl rfl
      · exact Or.inr (List.mem_cons_of_mem _ h2)
    · rcases List.mem_cons.mp h with rfl | h2
      · exact Or.inr (List.mem_cons_self _ _)
      · rcases ih h2 with h3 | h3
        · exact Or.inl h3
        · exact Or.inr (List.mem_cons_of_mem _ h3)

theorem not_mem_removeFromRoom_other (rooms : RoomMap) (room r : JValue) (c : Nat)
    (h : c ∉ roomMembers rooms r) : c ∉ roomMembers (removeFromRoom rooms room c) r := by
  rw [removeFromRoom]
  split
  · split
    · by_cases hr : r = room
      · subst hr
        rw [roomMembers, mapFind_mapDelete_self]
        simp
      · rw [roomMembers, mapFind_mapDelete_ne _ hr]
        exact h
    · by_cases hr : r = room
      · subst hr
        rw [roomMembers, mapFind_mapSet_self, Option.getD_some]
        exact not_mem_filter_ne_self _ c
      · rw [roomMembers, mapFind_mapSet_ne _ _ hr]
        exact h
  · exact h

theorem not_mem_removeFromRoom_self (rooms : RoomMap) (room : JValue) (c : Nat)
    (htr : room.truthy = true) : c ∉ roomMembers (removeFromRoom rooms room c) room := by
  rw [removeFromRoom]
  split
  · split
    · rw [roomMembers, mapFind_mapDelete_self]
      simp
    · rw [roomMembers, mapFind_mapSet_self, Option.getD_some]
      exact not_mem_filter_ne_self _ c
  · next hguard =>
    rw [Bool.and_eq_true, not_and_or] at hguard
    rcases hguard with hg | hg
    · exact absurd htr hg
    · have hhas : mapHas rooms room = false := by
        cases hh : mapHas rooms room with
        | false => rfl
        | true => exact absurd hh hg
      rw [roomMembers_eq_nil_of_not_has hhas]
      simp

theorem mem_undef_removeFromRoom (rooms : RoomMap) (room : JValue) (d c : Nat)
    (h : c ∈ roomMembers rooms JValue.undef) :
    c ∈ roomMembers (removeFromRoom rooms room d) JValue.undef := by
  rw [removeFromRoom]
  split
  · next hguard =>
    rw [Bool.and_eq_true] at hguard
    have hne : JValue.undef ≠ room := by
      intro hh
      rw [← hh] at hguard
      exact Bool.false_ne_true hguard.1
    split
    · rw [roomMembers, mapFind_mapDelete_ne _ hne]
      exact h
    · rw [roomMembers, mapFind_mapSet_ne _ _ hne]
      exact h
  · exact h

theorem mem_undef_doSubscribe (s : ServerState) (d : Nat) (i : ClientInfo) (ts : List JValue)
    (c : Nat) (h : c ∈ roomMembers s.rooms JValue.undef) :
    c ∈ roomMembers (doSubscribe s d i ts).1.rooms JValue.undef := by
  simp only [doSubscribe]
  have h1 := mem_undef_removeFromRoom s.rooms i.room d c h
  by_cases ht : ts.headD JValue.undef = JValue.undef
  · rw [ht]
    simp only [roomMembers]
    rw [mapFind_mapSet_self, Option.getD_some]
    exact mem_setAdd.mpr (Or.inl h1)
  · rw [roomMembers, mapFind_mapSet_ne _ _ (fun hh => ht hh.symm)]
    exact h1

theorem phantom_member_step (s : ServerState) (e : Event) (c : Nat)
    (h : c ∈ roomMembers s.rooms JValue.undef) :
    c ∈ roomMembers (step s e).1.rooms JValue.undef := by
  cases e with
  | connect => exact h
  | closing d => exact h
  | close d =>
    show c ∈ roomMembers (handleClose s d).rooms JValue.undef
    rw [handleClose]
    cases hd : mapFind s.clients d with
    | none => exact h
    | some i => exact mem_undef_removeFromRoom s.rooms i.room d c h
  | recv d m payload =>
    show c ∈ roomMembers (handleMessage s d m payload).1.rooms JValue.undef
    cases hd : mapFind s.clients d with
    | none =>
      rw [handleMessage_no_session s d hd]
      exact h
    | some i =>
      cases hsub : isSubscribeShape m with
      | false =>
        rw [handleMessage_not_subscribe s d i hd m hsub]
        exact h
      | true =>
        cases m with
        | nonJson => simp [isSubscribeShape] at hsub
        | json ty ac topics =>
          cases topics with
          | none => simp [isSubscribeShape] at hsub
          | some ts =>
            have hty : (ty == some "subscribe") = true := by
              simp only [isSubscribeShape, Option.isSome_some, Bool.and_true] at hsub
              exact hsub
            rw [handleMessage_subscribe s d i hd ty ac ts hty payload]
            exact mem_undef_doSubscribe s d i ts c h

theorem phantom_member_persists (c : Nat) (es : List Event) :
    ∀ s : ServerState, c ∈ roomMembers s.rooms JValue.undef →
      c ∈ roomMembers (run s es).rooms JValue.undef := by
  induction es with
  | nil => exact fun _ h => h
  | cons e rest ih =>
    intro s h
    rw [run]
    exact ih _ (phantom_member_step s e c h)

theorem roomStats_of_mem_members {m : RoomMap} {k : JValue} {c : Nat}
    (h : c ∈ roomMembers m k) : (k, (roomMembers m k).length) ∈ getRoomStats m := by
  have hhas : mapHas m k = true := by
    cases hf : mapFind m k with
    | none =>
      rw [roomMembers, hf, Option.getD_none] at h
      cases h
    | some v =>
      rw [mapHas, hf]
      rfl
  exact List.mem_map.mpr ⟨(k, roomMembers m k), mem_roomMembers_self hhas, rfl⟩

/-! ### No registry entry is ever empty -/

theorem roomsNonempty_removeFromRoom (rooms : RoomMap) (room : JValue) (c : Nat)
    (h : ∀ p ∈ rooms, p.2 ≠ []) : ∀ p ∈ removeFromRoom rooms room c, p.2 ≠ [] := by
  rw [removeFromRoom]
  split
  · split
    · intro p hp
      exact h p (mem_mapDelete.mp hp).1
    · next hne =>
      intro p hp
      rcases mem_mapSet_weak hp with rfl | hp2
      · intro hnil
        rw [List.isEmpty_iff] at hne
        exact hne hnil
      · exact h p hp2
  · exact h

theorem roomsNonempty_doSubscribe (s : ServerState) (c : Nat) (info : ClientInfo)
    (ts : List JValue) (h : ∀ p ∈ s.rooms, p.2 ≠ []) :
    ∀ p ∈ (doSubscribe s c info ts).1.rooms, p.2 ≠ [] := by
  simp only [doSubscribe]
  intro p hp
  rcases mem_mapSet_weak hp with rfl | hp2
  · exact setAdd_ne_nil _ _
  · exact roomsNonempty_removeFromRoom s.rooms info.room c h p hp2

theorem roomsNonempty_step (s : ServerState) (e : Event)
    (h : ∀ p ∈ s.rooms, p.2 ≠ []) : ∀ p ∈ (step s e).1.rooms, p.2 ≠ [] := by
  cases e with
  | connect => exact h
  | closing c => exact h
  | close c =>
    show ∀ p ∈ (handleClose s c).rooms, p.2 ≠ []
    rw [handleClose]
    cases hc : mapFind s.clients c with
    | none => exact h
    | some info => exact roomsNonempty_removeFromRoom s.rooms info.room c h
  | recv c m payload =>
    show ∀ p ∈ (handleMessage s c m payload).1.rooms, p.2 ≠ []
    cases hc : mapFind s.clients c with
    | none =>
      rw [handleMessage_no_session s c hc]
      exact h
    | some info =>
      cases hsub : isSubscribeShape m with
      | false =>
        rw [handleMessage_not_subscribe s c info hc m hsub]
        exact h
      | true =>
        cases m with
        | nonJson => simp [isSubscribeShape] at hsub
        | json ty ac topics =>
          cases topics with
          | none => simp [isSubscribeShape] at hsub
          | some ts =>
            have hty : (ty == some "subscribe") = true := by
              simp only [isSubscribeShape, Option.isSome_some, Bool.and_true] at hsub
              exact hsub
            rw [handleMessage_subscribe s c info hc ty ac ts hty payload]
            exact roomsNonempty_doSubscribe s c info ts h

theorem roomsNonempty_run (es : List Event) :
    ∀ s : ServerState, (∀ p ∈ s.rooms, p.2 ≠ []) →
      ∀ p ∈ (run s es).rooms, p.2 ≠ [] := by
  induction es with
  | nil => exact fun _ h => h
  | cons e rest ih =>
    intro s h
    rw [run]
    exact ih _ (roomsNonempty_step s e h)

/-! ### Claim C2 -/

/-- C2 (amended): for two connections in the same room, any message that is
not a successfully parsed subscribe is delivered verbatim to the other
member (when its channel is OPEN), is delivered only to members of that
room, never echoes to the sender, and leaves the state unchanged.  (A parsed
subscribe moves the sender first and fans out to the just-joined room, so it
is excluded here; see C6.) -/
theorem c2_room_relay (s : ServerState) (c1 c2 : Nat) (info : ClientInfo)
    (hc1 : mapFind s.clients c1 = some info) (r : JValue) (hr : info.room = r)
    (htr : r.truthy = true) (hhas : mapHas s.rooms r = true)
    (hm1 : c1 ∈ roomMembers s.rooms r) (hm2 : c2 ∈ roomMembers s.rooms r)
    (hne : c2 ≠ c1) (hop : s.openConns.contains c2 = true)
    (m : Message) (hnsub : isSubscribeShape m = false) (payload : String) :
    (handleMessage s c1 m payload).1 = s ∧
    (c2, payload) ∈ (handleMessage s c1 m payload).2 ∧
    ∀ q ∈ (handleMessage s c1 m payload).2,
      q.2 = payload ∧ q.1 ≠ c1 ∧ q.1 ∈ roomMembers s.rooms r := by
  subst hr
  rw [handleMessage_not_subscribe s c1 info hc1 m hnsub,
    relay_of_truthy_has s c1 info htr hhas]
  refine ⟨rfl, ?_, ?_⟩
  · refine List.mem_map.mpr ⟨c2, List.mem_filter.mpr ⟨hm2, ?_⟩, rfl⟩
    rw [Bool.and_eq_true]
    refine ⟨?_, hop⟩
    rwa [bne_iff_ne]
  · intro q hq
    rcases List.mem_map.mp hq with ⟨d, hd, rfl⟩
    obtain ⟨hd1, hd2⟩ := List.mem_filter.mp hd
    rw [Bool.and_eq_true] at hd2
    exact ⟨rfl, bne_iff_ne.mp hd2.1, hd1⟩

/-- Witness for C2: in the two-member room A, a test message from socket 0
reaches exactly socket 1. -/
theorem c2_room_relay_witness :
    (mapFind sPair.clients 0 = some ⟨JValue.jstr "A"⟩ ∧
     (JValue.jstr "A").truthy = true ∧
     mapHas sPair.rooms (JValue.jstr "A") = true ∧
     0 ∈ roomMembers sPair.rooms (JValue.jstr "A") ∧
     1 ∈ roomMembers sPair.rooms (JValue.jstr "A") ∧
     (1 : Nat) ≠ 0 ∧
     sPair.openConns.contains 1 = true ∧
     isSubscribeShape (.json (some "test") none none) = false) ∧
    ((handleMessage sPair 0 (.json (some "test") none none) "hello").1 = sPair ∧
     (1, "hello") ∈ (handleMessage sPair 0 (.json (some "test") none none) "hello").2 ∧
     ∀ q ∈ (handleMessage sPair 0 (.json (some "test") none none) "hello").2,
       q.2 = "hello" ∧ q.1 ≠ 0 ∧ q.1 ∈ roomMembers sPair.rooms (JValue.jstr "A")) :=
  ⟨by decide,
   c2_room_relay sPair 0 1 ⟨JValue.jstr "A"⟩ (by decide) (JValue.jstr "A") rfl
     (by decide) (by decide) (by decide) (by decide) (by decide) (by decide)
     (.json (some "test") none none) (by decide) "hello"⟩

/-- C2 as stated is false on the code: sockets 0 and 1 share room A and 1 is
open, but when 0 sends a subscribe naming room B, socket 1 receives nothing
and the message is delivered to socket 2, which is outside room A. -/
theorem c2_counterexample :
    ¬ ((1, "p") ∈ (handleMessage sTwoRooms 0 (subscribeMsg "B") "p").2 ∧
       ∀ q ∈ (handleMessage sTwoRooms 0 (subscribeMsg "B") "p").2,
         q.1 ∈ roomMembers sTwoRooms.rooms (JValue.jstr "A")) := by
  decide

/-! ### Claim C4 -/

/-- C4 (amended): only the `type` discriminator is recognized (a message
carrying `action` alone is relay-only).  For a `type`-discriminated
subscribe with a non-empty topics array, the sender joins the room named by
the first identifier, and an identifier after the first (different from the
first) adds no membership: if the sender was not in that room before, it is
not in it after. -/
theorem c4_first_topic_wins (s : ServerState) (c : Nat) (info : ClientInfo)
    (hc : mapFind s.clients c = some info) (ac : Option String)
    (t : JValue) (rest : List JValue) (payload : String) :
    mapFind (handleMessage s c (.json (some "subscribe") ac (some (t :: rest))) payload).1.clients c
      = some ⟨t⟩ ∧
    c ∈ roomMembers
      (handleMessage s c (.json (some "subscribe") ac (some (t :: rest))) payload).1.rooms t ∧
    ∀ r ∈ rest, r ≠ t → c ∉ roomMembers s.rooms r →
      c ∉ roomMembers
        (handleMessage s c (.json (some "subscribe") ac (some (t :: rest))) payload).1.rooms r := by
  rw [handleMessage_subscribe s c info hc _ ac _ (beq_self_eq_true _)]
  simp only [doSubscribe, List.headD]
  refine ⟨?_, ?_, ?_⟩
  · rw [mapFind_mapSet_self]
  · rw [roomMembers, mapFind_mapSet_self, Option.getD_some]
    exact mem_setAdd.mpr (Or.inr rfl)
  · intro r hrmem hrne hnotpre
    rw [roomMembers, mapFind_mapSet_ne _ _ hrne]
    exact not_mem_removeFromRoom_other s.rooms info.room r c hnotpre

/-- Witness for C4: socket 0 subscribes with topics A then B; it joins A and
stays out of B. -/
theorem c4_first_topic_wins_witness :
    (mapFind sOneConn.clients 0 = some ⟨JValue.jnull⟩) ∧
    (mapFind (handleMessage sOneConn 0
        (.json (some "subscribe") none (some [JValue.jstr "A", JValue.jstr "B"])) "p").1.clients 0
      = some ⟨JValue.jstr "A"⟩ ∧
    0 ∈ roomMembers (handleMessage sOneConn 0
        (.json (some "subscribe") none (some [JValue.jstr "A", JValue.jstr "B"])) "p").1.rooms
        (JValue.jstr "A") ∧
    ∀ r ∈ [JValue.jstr "B"], r ≠ JValue.jstr "A" →
      0 ∉ roomMembers sOneConn.rooms r →
      0 ∉ roomMembers (handleMessage sOneConn 0
        (.json (some "subscribe") none (some [JValue.jstr "A", JValue.jstr "B"])) "p").1.rooms r) :=
  ⟨by decide,
   c4_first_topic_wins sOneConn 0 ⟨JValue.jnull⟩ (by decide) none
     (JValue.jstr "A") [JValue.jstr "B"] "p"⟩

/-- C4 as stated is false on the code: a message whose `action` field is
subscribe (with no `type`) is not honored — the session stays roomless and
room A is never created. -/
theorem c4_counterexample :
    (handleMessage sOneConn 0 actionSubscribeMsg "p").1 = sOneConn ∧
    mapFind (handleMessage sOneConn 0 actionSubscribeMsg "p").1.clients 0
      = some ⟨JValue.jnull⟩ ∧
    0 ∉ roomMembers (handleMessage sOneConn 0 actionSubscribeMsg "p").1.rooms
      (JValue.jstr "A") := by
  decide

/-! ### Claim C5 -/

/-- C5: at every observation point of every run from cold start, a room key
is absent from the registry exactly when its member set is empty, every
registry entry is non-empty, every stats entry is positive, and the stats
projection lists exactly the registry entries. -/
theorem c5_no_empty_rooms (es : List Event) :
    (∀ p ∈ (run initialState es).rooms, p.2 ≠ []) ∧
    (∀ k : JValue, mapHas (run initialState es).rooms k = false ↔
        roomMembers (run initialState es).rooms k = []) ∧
    (∀ q ∈ getRoomStats (run initialState es).rooms, 0 < q.2) ∧
    (∀ p ∈ (run initialState es).rooms,
        (p.1, p.2.length) ∈ getRoomStats (run initialState es).rooms) ∧
    (∀ (k : JValue) (n : Nat), mapHas (run initialState es).rooms k = false →
        (k, n) ∉ getRoomStats (run initialState es).rooms) := by
  have hne : ∀ p ∈ (run initialState es).rooms, p.2 ≠ [] :=
    roomsNonempty_run es initialState (fun p hp => absurd hp (List.not_mem_nil p))
  refine ⟨hne, ?_, ?_, ?_, ?_⟩
  · intro k
    constructor
    · exact roomMembers_eq_nil_of_not_has
    · intro hnil
      cases hhas : mapHas (run initialState es).rooms k with
      | false => rfl
      | true => exact absurd hnil (hne _ (mem_roomMembers_self hhas))
  · intro q hq
    rcases List.mem_map.mp hq with ⟨p, hp, rfl⟩
    exact List.length_pos.mpr (hne p hp)
  · intro p hp
    exact List.mem_map.mpr ⟨p, hp, rfl⟩
  · intro k n hhas hmem
    rcases List.mem_map.mp hmem with ⟨p, hp, heq⟩
    obtain ⟨a, b⟩ := p
    injection heq with h1 h2
    subst h1
    rw [mapHas_of_mem hp] at hhas
    cases hhas

/-- Witness for C5 at the phantom run, whose registry keeps a stale entry. -/
theorem c5_no_empty_rooms_witness :
    (∀ p ∈ (run initialState esPhantomSwitch).rooms, p.2 ≠ []) ∧
    (∀ k : JValue, mapHas (run initialState esPhantomSwitch).rooms k = false ↔
        roomMembers (run initialState esPhantomSwitch).rooms k = []) ∧
    (∀ q ∈ getRoomStats (run initialState esPhantomSwitch).rooms, 0 < q.2) ∧
    (∀ p ∈ (run initialState esPhantomSwitch).rooms,
        (p.1, p.2.length) ∈ getRoomStats (run initialState esPhantomSwitch).rooms) ∧
    (∀ (k : JValue) (n : Nat), mapHas (run initialState esPhantomSwitch).rooms k = false →
        (k, n) ∉ getRoomStats (run initialState esPhantomSwitch).rooms) :=
  c5_no_empty_rooms esPhantomSwitch

/-! ### Claim C3 -/

/-- C3: on a WebSocket upgrade request (to a non-health path), establishment
succeeds exactly when the presented Sec-WebSocket-Protocol credential equals
the configured secret; on success the same credential is echoed back as the
accepted protocol and a roomless session is installed; on mismatch the
response is 401 unauthorized and the state is untouched. -/
theorem c3_auth_gate (pw : String) (s : ServerState) (path : String)
    (proto : Option String) (nowMs : Nat)
    (hpath1 : path ≠ "/health") (hpath2 : path ≠ "/") :
    ((handleRequest pw s path true proto nowMs).1 = .upgraded pw ↔ proto = some pw) ∧
    (proto = some pw → handleRequest pw s path true proto nowMs =
      (.upgraded pw,
        { s with clients := mapSet s.clients s.nextId ⟨JValue.jnull⟩
                 openConns := setAdd s.openConns s.nextId
                 nextId := s.nextId + 1 })) ∧
    (proto ≠ some pw → handleRequest pw s path true proto nowMs = (.unauthorized, s)) := by
  have hp : (path == "/health" || path == "/") = false := by
    simp [hpath1, hpath2]
  by_cases hproto : proto = some pw
  · refine ⟨⟨fun _ => hproto, fun _ => ?_⟩, fun _ => ?_, fun hcon => absurd hproto hcon⟩
    · simp [handleRequest, hp, hproto]
    · simp [handleRequest, hp, hproto]
  · refine ⟨⟨fun hup => ?_, fun hcon => absurd hcon hproto⟩,
      fun hcon => absurd hcon hproto, fun _ => ?_⟩
    · exfalso
      have hun : (handleRequest pw s path true proto nowMs).1 = .unauthorized := by
        simp [handleRequest, hp, hproto]
      rw [hun] at hup
      cases hup
    · simp [handleRequest, hp, hproto]

/-- Witness for C3 at a concrete request. -/
theorem c3_auth_gate_witness :
    (("/ws" : String) ≠ "/health" ∧ ("/ws" : String) ≠ "/") ∧
    (((handleRequest "pw" initialState "/ws" true (some "wrong") 0).1
        = .upgraded "pw" ↔ (some "wrong" : Option String) = some "pw") ∧
     ((some "wrong" : Option String) = some "pw" →
        handleRequest "pw" initialState "/ws" true (some "wrong") 0 =
          (.upgraded "pw",
            { initialState with
                clients := mapSet initialState.clients initialState.nextId ⟨JValue.jnull⟩
                openConns := setAdd initialState.openConns initialState.nextId
                nextId := initialState.nextId + 1 })) ∧
     ((some "wrong" : Option String) ≠ some "pw" →
        handleRequest "pw" initialState "/ws" true (some "wrong") 0 =
          (.unauthorized, initialState))) :=
  ⟨⟨by decide, by decide⟩,
   c3_auth_gate "pw" initialState "/ws" (some "wrong") 0 (by decide) (by decide)⟩

/-! ### Claim C6 -/

/-- C6 (amended): a successfully parsed subscribe whose first topic is a
truthy room id updates the membership first and is then fanned out, exactly
like any other message, to the other OPEN members of the just-joined room.
(A subscribe whose first topic is falsy leaves the relay guard falsy, so it
is not fanned out; see the counterexample and C10.) -/
theorem c6_subscribe_relayed (s : ServerState) (c : Nat) (info : ClientInfo)
    (hc : mapFind s.clients c = some info) (ac : Option String) (t : JValue)
    (ht : t.truthy = true) (rest : List JValue) (payload : String) :
    mapFind (handleMessage s c (.json (some "subscribe") ac (some (t :: rest))) payload).1.clients c
      = some ⟨t⟩ ∧
    c ∈ roomMembers
      (handleMessage s c (.json (some "subscribe") ac (some (t :: rest))) payload).1.rooms t ∧
    (handleMessage s c (.json (some "subscribe") ac (some (t :: rest))) payload).2 =
      ((roomMembers
          (handleMessage s c (.json (some "subscribe") ac (some (t :: rest))) payload).1.rooms
          t).filter (fun d => d != c && s.openConns.contains d)).map (fun d => (d, payload)) := by
  rw [handleMessage_subscribe s c info hc _ ac _ (beq_self_eq_true _)]
  simp only [doSubscribe, List.headD]
  refine ⟨?_, ?_, ?_⟩
  · rw [mapFind_mapSet_self]
  · rw [roomMembers, mapFind_mapSet_self, Option.getD_some]
    exact mem_setAdd.mpr (Or.inr rfl)
  · exact relay_of_truthy_has _ c ⟨t⟩ ht (by rw [mapHas, mapFind_mapSet_self]; rfl) payload

/-- Witness for C6: socket 1 subscribes to room A where socket 0 already
sits; the subscribe itself is delivered to socket 0. -/
theorem c6_subscribe_relayed_witness :
    (mapFind sPair.clients 1 = some ⟨JValue.jstr "A"⟩ ∧
     (JValue.jstr "A").truthy = true) ∧
    (mapFind (handleMessage sPair 1 (.json (some "subscribe") none
        (some [JValue.jstr "A"])) "resub").1.clients 1 = some ⟨JValue.jstr "A"⟩ ∧
     1 ∈ roomMembers (handleMessage sPair 1 (.json (some "subscribe") none
        (some [JValue.jstr "A"])) "resub").1.rooms (JValue.jstr "A") ∧
     (handleMessage sPair 1 (.json (some "subscribe") none
        (some [JValue.jstr "A"])) "resub").2 =
      ((roomMembers (handleMessage sPair 1 (.json (some "subscribe") none
          (some [JValue.jstr "A"])) "resub").1.rooms (JValue.jstr "A")).filter
        (fun d => d != 1 && sPair.openConns.contains d)).map (fun d => (d, "resub"))) :=
  ⟨⟨by decide, by decide⟩,
   c6_subscribe_relayed sPair 1 ⟨JValue.jstr "A"⟩ (by decide) none (JValue.jstr "A")
     (by decide) [] "resub"⟩

/-- C6 as stated is false on the code: socket 1's empty-topics subscribe is
successfully parsed and joins the phantom undefined entry whose other member
0 is OPEN, yet nothing at all is fanned out. -/
theorem c6_counterexample :
    isSubscribeShape emptySubscribeMsg = true ∧
    0 ∈ roomMembers (handleMessage sPhantomPair 1 emptySubscribeMsg "p").1.rooms JValue.undef ∧
    1 ∈ roomMembers (handleMessage sPhantomPair 1 emptySubscribeMsg "p").1.rooms JValue.undef ∧
    sPhantomPair.openConns.contains 0 = true ∧
    (handleMessage sPhantomPair 1 emptySubscribeMsg "p").2 = [] := by
  decide

/-! ### Claim C7 -/

/-- C7: a message (other than a recognized subscribe) received on a session
whose room pointer is falsy is dropped: nothing is sent to anyone, nothing
is sent back to the sender, and the whole state is unchanged. -/
theorem c7_orphan_dropped (s : ServerState) (c : Nat) (info : ClientInfo)
    (hc : mapFind s.clients c = some info) (hroom : info.room.truthy = false)
    (m : Message) (hm : isSubscribeShape m = false) (payload : String) :
    handleMessage s c m payload = (s, []) := by
  rw [handleMessage_not_subscribe s c info hc m hm, relay_of_not_truthy s c info hroom]

/-- Witness for C7: a message from the never-subscribed socket 0. -/
theorem c7_orphan_dropped_witness :
    (mapFind sOneConn.clients 0 = some ⟨JValue.jnull⟩ ∧
     JValue.jnull.truthy = false ∧
     isSubscribeShape (.json (some "offer") none none) = false) ∧
    handleMessage sOneConn 0 (.json (some "offer") none none) "x" = (sOneConn, []) :=
  ⟨⟨by decide, rfl, rfl⟩,
   c7_orphan_dropped sOneConn 0 ⟨JValue.jnull⟩ (by decide) rfl
     (.json (some "offer") none none) rfl "x"⟩

/-! ### Claim C8 -/

/-- C8: a payload on which JSON.parse throws, sent by a member of a present
room, is relayed byte-identical to every other OPEN member of that room; the
failure is not fatal and no membership changes (the state is unchanged). -/
theorem c8_malformed_relayed (s : ServerState) (c : Nat) (info : ClientInfo)
    (hc : mapFind s.clients c = some info) (htr : info.room.truthy = true)
    (hhas : mapHas s.rooms info.room = true) (payload : String) :
    handleMessage s c .nonJson payload =
      (s, ((roomMembers s.rooms info.room).filter
        (fun d => d != c && s.openConns.contains d)).map (fun d => (d, payload))) := by
  rw [handleMessage_not_subscribe s c info hc .nonJson rfl,
    relay_of_truthy_has s c info htr hhas]

/-- Witness for C8: a non-JSON payload from socket 0 in room A reaches
socket 1 verbatim. -/
theorem c8_malformed_relayed_witness :
    (mapFind sPair.clients 0 = some ⟨JValue.jstr "A"⟩ ∧
     (JValue.jstr "A").truthy = true ∧
     mapHas sPair.rooms (JValue.jstr "A") = true) ∧
    handleMessage sPair 0 .nonJson "raw-bytes" =
      (sPair, ((roomMembers sPair.rooms (JValue.jstr "A")).filter
        (fun d => d != 0 && sPair.openConns.contains d)).map (fun d => (d, "raw-bytes"))) :=
  ⟨⟨by decide, by decide, by decide⟩,
   c8_malformed_relayed sPair 0 ⟨JValue.jstr "A"⟩ (by decide) (by decide) (by decide)
     "raw-bytes"⟩

/-! ### Claim C9 -/

/-- C9 (amended): a request to the health path is answered for any (even
absent) credential and any method, mutates nothing, and reports status ok,
the room count, the total client count computed as the sum of per-room
member counts (open connections that never subscribed are not counted),
the per-room member counts, and the process uptime. -/
theorem c9_health_stats (pw : String) (s : ServerState) (path : String)
    (isUp : Bool) (proto : Option String) (nowMs : Nat)
    (hpath : path = "/health" ∨ path = "/") :
    handleRequest pw s path isUp proto nowMs =
      (.health "ok" s.rooms.length (getTotalClients s.rooms) (getRoomStats s.rooms)
        (nowMs / 1000), s) := by
  rcases hpath with rfl | rfl
  · rfl
  · rfl

/-- Witness for C9 on the two-member state. -/
theorem c9_health_stats_witness :
    (("/health" : String) = "/health" ∨ ("/health" : String) = "/") ∧
    handleRequest "pw" sPair "/health" false none 5000 =
      (.health "ok" sPair.rooms.length (getTotalClients sPair.rooms)
        (getRoomStats sPair.rooms) 5, sPair) :=
  ⟨Or.inl rfl, c9_health_stats "pw" sPair "/health" false none 5000 (Or.inl rfl)⟩

/-- C9 as stated is false on the code: with one open authenticated
connection that has not subscribed, the health response reports
totalClients = 0, not the number of open connections (1). -/
theorem c9_counterexample :
    sOneConn.openConns.length = 1 ∧
    (handleRequest "pw" sOneConn "/health" false none 0).1 =
      .health "ok" 0 0 [] 0 ∧
    ¬ ((handleRequest "pw" sOneConn "/health" false none 0).1 =
      .health "ok" sOneConn.rooms.length sOneConn.openConns.length
        (getRoomStats sOneConn.rooms) 0) := by
  decide

/-! ### Claim C10 -/

theorem phantom_after_close (s2 : ServerState) (c : Nat)
    (hfind : mapFind s2.clients c = some ⟨JValue.undef⟩)
    (hmem : c ∈ roomMembers s2.rooms JValue.undef) (es : List Event) :
    c ∈ roomMembers (run (handleClose s2 c) es).rooms JValue.undef := by
  have hclose : c ∈ roomMembers (handleClose s2 c).rooms JValue.undef := by
    rw [handleClose, hfind]
    exact mem_undef_removeFromRoom s2.rooms JValue.undef c c hmem
  exact phantom_member_persists c es _ hclose

/-- C10: an empty-topics subscribe passes the shape check and joins with the
undefined identifier: the sender is removed from its previous (truthy) room,
lands in the registry entry keyed undefined while its own room pointer holds
the falsy undefined value, the subscribe is not relayed, later non-subscribe
messages are dropped without effect, and after the close event the socket is
still in the undefined entry, which survives in the registry and the stats
under every further event sequence. -/
theorem c10_phantom_room (s : ServerState) (c : Nat) (info : ClientInfo)
    (hc : mapFind s.clients c = some info) (ac : Option String) (payload : String) :
    isSubscribeShape (.json (some "subscribe") ac (some [])) = true ∧
    mapFind (handleMessage s c (.json (some "subscribe") ac (some [])) payload).1.clients c
      = some ⟨JValue.undef⟩ ∧
    JValue.undef.truthy = false ∧
    c ∈ roomMembers (handleMessage s c (.json (some "subscribe") ac (some [])) payload).1.rooms
      JValue.undef ∧
    (info.room.truthy = true →
      c ∉ roomMembers (handleMessage s c (.json (some "subscribe") ac (some [])) payload).1.rooms
        info.room) ∧
    (handleMessage s c (.json (some "subscribe") ac (some [])) payload).2 = [] ∧
    (∀ (m : Message) (payload2 : String), isSubscribeShape m = false →
      handleMessage (handleMessage s c (.json (some "subscribe") ac (some [])) payload).1 c m
          payload2
        = ((handleMessage s c (.json (some "subscribe") ac (some [])) payload).1, [])) ∧
    (∀ es : List Event,
      c ∈ roomMembers
        (run (handleClose (handleMessage s c (.json (some "subscribe") ac (some [])) payload).1 c)
          es).rooms JValue.undef ∧
      (JValue.undef,
        (roomMembers
          (run (handleClose (handleMessage s c (.json (some "subscribe") ac (some [])) payload).1
            c) es).rooms JValue.undef).length) ∈
        getRoomStats
          (run (handleClose (handleMessage s c (.json (some "subscribe") ac (some [])) payload).1
            c) es).rooms) := by
  rw [handleMessage_subscribe s c info hc _ ac _ (beq_self_eq_true _)]
  simp only [doSubscribe, List.headD]
  have hfind2 : mapFind (mapSet s.clients c ⟨JValue.undef⟩) c = some ⟨JValue.undef⟩ :=
    mapFind_mapSet_self _ _ _
  have h4 : c ∈ roomMembers (mapSet (removeFromRoom s.rooms info.room c) JValue.undef
      (setAdd (roomMembers (removeFromRoom s.rooms info.room c) JValue.undef) c))
      JValue.undef := by
    rw [roomMembers, mapFind_mapSet_self, Option.getD_some]
    exact mem_setAdd.mpr (Or.inr rfl)
  refine ⟨rfl, hfind2, rfl, h4, ?_, ?_, ?_, ?_⟩
  · intro htr
    have hne : info.room ≠ JValue.undef := by
      intro hh
      rw [hh] at htr
      exact Bool.false_ne_true htr
    rw [roomMembers, mapFind_mapSet_ne _ _ hne]
    exact not_mem_removeFromRoom_self s.rooms info.room c htr
  · exact relay_of_not_truthy _ c ⟨JValue.undef⟩ rfl payload
  · intro m payload2 hm
    rw [handleMessage_not_subscribe _ c ⟨JValue.undef⟩ hfind2 m hm payload2,
      relay_of_not_truthy _ c ⟨JValue.undef⟩ rfl payload2]
  · intro es
    exact ⟨phantom_after_close _ c hfind2 h4 es,
      roomStats_of_mem_members (phantom_after_close _ c hfind2 h4 es)⟩

/-- Witness for C10: the never-subscribed socket 0 sends an empty-topics
subscribe. -/
theorem c10_phantom_room_witness :
    (mapFind sOneConn.clients 0 = some ⟨JValue.jnull⟩) ∧
    (0 ∈ roomMembers (handleMessage sOneConn 0 (.json (some "subscribe") none (some []))
        "e").1.rooms JValue.undef ∧
     (handleMessage sOneConn 0 (.json (some "subscribe") none (some [])) "e").2 = [] ∧
     ∀ es : List Event,
       0 ∈ roomMembers
        (run (handleClose (handleMessage sOneConn 0 (.json (some "subscribe") none (some []))
          "e").1 0) es).rooms JValue.undef) := by
  have h := c10_phantom_room sOneConn 0 ⟨JValue.jnull⟩ (by decide) none "e"
  exact ⟨by decide, h.2.2.2.1, h.2.2.2.2.2.1, fun es => (h.2.2.2.2.2.2.2 es).1⟩

end Signaling
